import Mathlib

set_option linter.unusedVariables false

/-! Shallow embedding of libavformat/tcp.c (tcp_open, tcp_read, tcp_write).

The OS interface (socket, bind, listen, accept, connect, poll, getsockopt,
url_interrupt_cb, av_malloc) and the external collaborators av_url_split and
getaddrinfo are modelled by an oracle `Env`, indexed by a call counter `St.clk`
that advances at every OS call.  Each run also records a chronological trace of
the calls it made, so that ordering and resource properties can be stated. -/

/-- POSIX-style FFmpeg error code: AVERROR(e) = -e. -/
def AVERROR (e : Nat) : Int := -(e : Int)

def EINVAL : Nat := 22
def EIO_code : Nat := 5
def ENOMEM : Nat := 12
def EINTR : Nat := 4
def EAGAIN : Nat := 11
def EINPROGRESS : Nat := 115

/-- AVERROR_EXIT = -MKTAG('E','X','I','T') = -(69 + 88*2^8 + 73*2^16 + 84*2^24). -/
def AVERROR_EXIT : Int := -1414092869

/-- ff_neterrno() on POSIX is AVERROR(errno); the model threads the most recent
errno of a failing call explicitly (as `St.lastErr`). -/
def ff_neterrno (err : Nat) : Int := AVERROR err

/-- The TCPContext structure of tcp.c: it holds only the socket descriptor. -/
structure TCPContext where
  fd : Int
deriving DecidableEq, Repr

/-- One trace entry per OS/library call made by the embedded code. -/
inductive Ev where
  | resolvec (ok : Bool)                      -- getaddrinfo
  | sock (cand : Nat) (fd : Int)              -- socket() for candidate `cand`
  | bindc (fd : Int) (r : Int)                -- bind()
  | lsn (fd : Int)                            -- listen(fd, 1)
  | acc (fd : Int) (r : Int)                  -- accept()
  | conn (cand : Nat) (fd : Int) (r : Int)    -- connect()
  | nb (fd : Int)                             -- ff_socket_nonblock(fd, 1)
  | intr (b : Bool)                           -- url_interrupt_cb()
  | pollc (fd : Int) (r : Int)                -- poll({fd, POLLOUT}, 1, 100)
  | sockopt (fd : Int) (v : Option Nat)       -- getsockopt(fd, SOL_SOCKET, SO_ERROR)
  | closec (fd : Int)                         -- closesocket(fd)
  | alloc (ok : Bool)                         -- av_malloc(sizeof(TCPContext))
  | gofail (cand : Nat)                       -- control reached the fail label
  | waitfd (fd : Int) (forWrite : Bool) (r : Int) -- ff_network_wait_fd
  | recvc (fd : Int) (r : Int)                -- recv()
  | sendc (fd : Int) (r : Int)                -- send()
deriving DecidableEq, Repr

/-- Machine state threaded through the run: the oracle clock and the errno of
the most recent failing call (read back through `ff_neterrno`). -/
structure St where
  clk : Nat
  lastErr : Nat
deriving DecidableEq, Repr

/-- Oracle for everything outside tcp.c.  `proto`/`hostname`/`port` are the
outputs of av_url_split for the given uri; `resolve = some n` models a
successful getaddrinfo returning `n + 1` candidate addresses (getaddrinfo
never succeeds with an empty list), `none` a resolution failure.  The
per-call results are indexed by the call clock; `errnoAt t` is the errno a
call failing at clock `t` leaves behind. -/
structure Env where
  proto : String
  hostname : String
  port : Int
  resolve : Option Nat
  socketRes : Nat → Int
  bindRes : Nat → Int
  listenRes : Nat → Int
  acceptRes : Nat → Int
  connectRes : Nat → Int
  pollRes : Nat → Int
  intr : Nat → Bool
  soRes : Nat → Option Nat
  errnoAt : Nat → Nat
  mallocOk : Bool

/-- Advance the call clock; a failing call (negative result) stores its errno. -/
def afterCall (env : Env) (st : St) (r : Int) : St :=
  { clk := st.clk + 1, lastErr := if r < 0 then env.errnoAt st.clk else st.lastErr }

/-- Advance the call clock for a call that does not touch errno. -/
def tick (st : St) : St := { st with clk := st.clk + 1 }

/-- strchr(uri, c): the suffix of the string starting at the first occurrence
of `ch`, or none when `ch` does not occur. -/
def strchrSuffix : List Char → Char → Option (List Char)
  | [], _ => none
  | c :: cs, ch => if c = ch then some (c :: cs) else strchrSuffix cs ch

/-- Modelled from the spec: av_find_info_tag (libavutil/parseutils.c) is not
part of src/; the spec only says the mode flag is "derived from a URI query
option (listen)".  Modelled after the function's API contract: the info string
(optionally starting with a question mark) is a sequence of tag or tag=value
segments separated by ampersands, and the result is whether some segment's tag
part (the characters before the first equals sign) equals the requested tag,
regardless of the value attached to it. -/
def av_find_info_tag (tag : List Char) (info : List Char) : Bool :=
  let info2 := match info with
    | '?' :: r => r
    | r => r
  (info2.splitOn '&').any (fun seg => seg.takeWhile (fun c => !(c == '=')) == tag)

/-- Lines 55-59 of tcp.c: listen mode is selected when the uri has a query
string containing a "listen" tag (whatever its value). -/
def parseListen (uri : String) : Bool :=
  match strchrSuffix uri.toList '?' with
  | none => false
  | some p => av_find_info_tag "listen".toList p

/-- Lines 106-115 of tcp.c: the connect wait loop.  Each iteration first polls
url_interrupt_cb (abort checkpoint), then poll()s the descriptor for write
readiness with a 100 ms timeout, leaving the loop only when poll reports a
positive result.  Returns `true` when the loop ended because the interrupt
predicate was observed asserted, `false` when poll reported readiness.  Fuel
bounds the number of iterations modelled; `none` means the loop was still
running when the fuel ran out. -/
def waitLoop (env : Env) (fd : Int) : Nat → St → Option (Bool × List Ev × St)
  | 0, _ => none
  | fuel + 1, st =>
    let b := env.intr st.clk
    let st1 := tick st
    if b then some (true, [Ev.intr true], st1)
    else
      let r := env.pollRes st1.clk
      let st2 := afterCall env st1 r
      if r > 0 then some (false, [Ev.intr false, Ev.pollc fd r], st2)
      else
        match waitLoop env fd fuel st2 with
        | none => none
        | some (ab, evs, st3) => some (ab, Ev.intr false :: Ev.pollc fd r :: evs, st3)

/-- Outcome of one candidate's establishment phase (lines 87-126 of tcp.c):
the candidate connected, it failed genuinely (control goes to the fail label),
or the interrupt predicate aborted the open (control goes to fail1). -/
inductive COut where
  | connected
  | failc
  | abortc
deriving DecidableEq, Repr

/-- Lines 87-126 of tcp.c, from the redo label up to (but excluding) the
av_malloc.  Entry `none` models arriving at the redo label (a connect call is
issued next); entry `some r` models arriving at line 91 with `ret = r` already
computed (the listen branch enters here with bind's return value).  Each
arrival at line 91 performs ff_socket_nonblock(fd, 1); then, when `ret < 0`:
an EINTR errno re-runs connect on the same fd after an interrupt checkpoint,
an errno other than EINPROGRESS and EAGAIN is a genuine failure, and otherwise
the wait loop runs, followed by the SO_ERROR check.  When getsockopt itself
fails (`soRes = none`), tcp.c leaves `ret` at poll's positive value, which is
nonzero, so that case is also a genuine failure. -/
def connPhase (env : Env) (cand : Nat) (fd : Int) : Nat → Option Int → St → Option (COut × List Ev × St)
  | 0, _, _ => none
  | fuel + 1, none, st =>
    let r := env.connectRes st.clk
    let st1 := afterCall env st r
    match connPhase env cand fd fuel (some r) st1 with
    | none => none
    | some (o, evs, st2) => some (o, Ev.conn cand fd r :: evs, st2)
  | fuel + 1, some r, st =>
    if r < 0 then
      if ff_neterrno st.lastErr = AVERROR EINTR then
        let b := env.intr st.clk
        let st1 := tick st
        if b then some (COut.abortc, [Ev.nb fd, Ev.intr true], st1)
        else
          match connPhase env cand fd fuel none st1 with
          | none => none
          | some (o, evs, st2) => some (o, Ev.nb fd :: Ev.intr false :: evs, st2)
      else if ff_neterrno st.lastErr ≠ AVERROR EINPROGRESS ∧ ff_neterrno st.lastErr ≠ AVERROR EAGAIN then
        some (COut.failc, [Ev.nb fd], st)
      else
        match waitLoop env fd (fuel + 1) st with
        | none => none
        | some (true, evs, st1) => some (COut.abortc, Ev.nb fd :: evs, st1)
        | some (false, evs, st1) =>
          let v := env.soRes st1.clk
          let st2 := tick st1
          some (if v = some 0 then COut.connected else COut.failc,
                Ev.nb fd :: evs ++ [Ev.sockopt fd v], st2)
    else
      some (COut.connected, [Ev.nb fd], st)

/-- What one candidate attempt resolved to: a final return of tcp_open, or
control reaching the fail label (advance to the next candidate) with the
current value of `fd`. -/
inductive Step where
  | done (code : Int) (ctx : Option TCPContext)
  | adv (fd : Int)
deriving DecidableEq, Repr

/-- The conditional close at the fail/fail1 labels: closesocket(fd) only when
fd >= 0. -/
def closeEvs (fd : Int) : List Ev := if 0 ≤ fd then [Ev.closec fd] else []

/-- Lines 120-136 and 147-151: turn a candidate outcome into a step.  On
`connected`, av_malloc either succeeds (return 0 with the context) or fails
(return AVERROR(ENOMEM) with no closesocket: tcp.c frees the addrinfo list
and returns directly from line 130).  On `abortc`, fail1 closes fd when
nonnegative and returns AVERROR_EXIT. -/
def settle (env : Env) (fd : Int) (out : COut) (st : St) : Step × List Ev × St :=
  match out with
  | COut.connected =>
    if env.mallocOk then (Step.done 0 (some { fd := fd }), [Ev.alloc true], st)
    else (Step.done (AVERROR ENOMEM) none, [Ev.alloc false], st)
  | COut.failc => (Step.adv fd, [], st)
  | COut.abortc => (Step.done AVERROR_EXIT none, closeEvs fd, st)

/-- The trace prefix of the listen branch (lines 75-85): socket, bind,
listen(fd,1), accept, and the inline close of the listening socket. -/
def listenPre (cur : Nat) (fd0 rb fa : Int) : List Ev :=
  [Ev.sock cur fd0, Ev.bindc fd0 rb, Ev.lsn fd0, Ev.acc fd0 fa, Ev.closec fd0]

/-- Lines 74-136 for a single candidate: socket creation (failure goes to the
fail label with the negative fd, so no close happens there), then either the
listen branch (bind, listen(fd,1) with its result ignored, accept, close of
the listening socket, and entry to line 91 with ret = bind's result and fd =
accept's result) or the connect branch (entry at the redo label). -/
def oneCand (env : Env) (lst : Bool) (fuel : Nat) (cur : Nat) (st : St) : Option (Step × List Ev × St) :=
  let fd0 := env.socketRes st.clk
  let st1 := afterCall env st fd0
  if fd0 < 0 then some (Step.adv fd0, [Ev.sock cur fd0], st1)
  else if lst then
    let rb := env.bindRes st1.clk
    let st2 := afterCall env st1 rb
    let rl := env.listenRes st2.clk
    let st3 := afterCall env st2 rl
    let fa := env.acceptRes st3.clk
    let st4 := afterCall env st3 fa
    match connPhase env cur fa fuel (some rb) st4 with
    | none => none
    | some (out, evs, st5) =>
      let s2 := settle env fa out st5
      some (s2.1, listenPre cur fd0 rb fa ++ (evs ++ s2.2.1), s2.2.2)
  else
    match connPhase env cur fd0 fuel none st1 with
    | none => none
    | some (out, evs, st2) =>
      let s2 := settle env fd0 out st2
      some (s2.1, [Ev.sock cur fd0] ++ (evs ++ s2.2.1), s2.2.2)

/-- The candidate loop of tcp_open (restart/fail labels): the current candidate
runs; if its step is final, that is the result; otherwise the fail label is
reached, and with a next candidate available the descriptor is closed (when
nonnegative) and the loop restarts on the next candidate, else ret becomes
AVERROR(EIO) and fail1 closes the descriptor and returns. -/
def tryFrom (env : Env) (lst : Bool) (fuel : Nat) : List Nat → Nat → St → Option ((Int × Option TCPContext) × List Ev × St)
  | [], cur, st =>
    match oneCand env lst fuel cur st with
    | none => none
    | some (Step.done code ctx, evs, st1) => some ((code, ctx), evs, st1)
    | some (Step.adv fd, evs, st1) =>
      some ((AVERROR EIO_code, none), evs ++ Ev.gofail cur :: closeEvs fd, st1)
  | next :: rest2, cur, st =>
    match oneCand env lst fuel cur st with
    | none => none
    | some (Step.done code ctx, evs, st1) => some ((code, ctx), evs, st1)
    | some (Step.adv fd, evs, st1) =>
      match tryFrom env lst fuel rest2 next st1 with
      | none => none
      | some (res, evs2, st2) => some (res, evs ++ Ev.gofail cur :: (closeEvs fd ++ evs2), st2)

/-- tcp_open (lines 37-152).  The av_url_split outputs and the getaddrinfo
result come from the oracle; a proto other than "tcp" or a port outside
1..65535 returns AVERROR(EINVAL) before anything else runs (empty trace);
a resolution failure returns AVERROR(EIO) immediately.  Otherwise the
candidate indices are 0, 1, ..., n when `resolve = some n`.  The result pairs
tcp_open's return code with the TCPContext stored into h->priv_data (if any)
and the trace of calls made. -/
def tcp_open (uri : String) (env : Env) (fuel : Nat) : Option ((Int × Option TCPContext) × List Ev) :=
  if env.proto ≠ "tcp" ∨ env.port ≤ 0 ∨ 65536 ≤ env.port then
    some ((AVERROR EINVAL, none), [])
  else
    let lst := parseListen uri
    match env.resolve with
    | none => some ((AVERROR EIO_code, none), [Ev.resolvec false])
    | some n =>
      match tryFrom env lst fuel (List.range' 1 n) 0 { clk := 0, lastErr := 0 } with
      | none => none
      | some (res, evs, _) => some (res, Ev.resolvec true :: evs)

/-- Oracle for one tcp_read/tcp_write call: the ff_network_wait_fd result, the
recv/send result, and the errno that call leaves when it fails. -/
structure IOEnv where
  waitRes : Int
  osRes : Int
  osErrno : Nat
deriving DecidableEq, Repr

/-- tcp_read (lines 154-166): when the handle's AVIO_FLAG_NONBLOCK flag is not
set, first ff_network_wait_fd(fd, 0) (read readiness, no overall timeout) and
return its result when negative; then recv, returning ff_neterrno() for a
negative result and the byte count otherwise. -/
def tcp_read (env : IOEnv) (flagNonblock : Bool) (fd : Int) : Int × List Ev :=
  if !flagNonblock then
    if env.waitRes < 0 then (env.waitRes, [Ev.waitfd fd false env.waitRes])
    else ((if env.osRes < 0 then ff_neterrno env.osErrno else env.osRes),
          [Ev.waitfd fd false env.waitRes, Ev.recvc fd env.osRes])
  else ((if env.osRes < 0 then ff_neterrno env.osErrno else env.osRes),
        [Ev.recvc fd env.osRes])

/-- tcp_write (lines 168-180): same shape as tcp_read with write readiness
(ff_network_wait_fd(fd, 1)) and send. -/
def tcp_write (env : IOEnv) (flagNonblock : Bool) (fd : Int) : Int × List Ev :=
  if !flagNonblock then
    if env.waitRes < 0 then (env.waitRes, [Ev.waitfd fd true env.waitRes])
    else ((if env.osRes < 0 then ff_neterrno env.osErrno else env.osRes),
          [Ev.waitfd fd true env.waitRes, Ev.sendc fd env.osRes])
  else ((if env.osRes < 0 then ff_neterrno env.osErrno else env.osRes),
        [Ev.sendc fd env.osRes])

/-- The candidate indices whose socket() call appears in a trace, in order. -/
def attempted (evs : List Ev) : List Nat :=
  evs.filterMap (fun e => match e with | Ev.sock c _ => some c | _ => none)

/-- Number of times control reached the fail label in a trace. -/
def countGofail (evs : List Ev) : Nat :=
  (evs.filter (fun e => match e with | Ev.gofail _ => true | _ => false)).length

/-- Number of connect() calls in a trace. -/
def countConn (evs : List Ev) : Nat :=
  (evs.filter (fun e => match e with | Ev.conn _ _ _ => true | _ => false)).length

/-- The part of a trace strictly after the first interrupt check that returned
true (empty when there is none). -/
def afterAbort (evs : List Ev) : List Ev :=
  (evs.dropWhile (fun e => !(e == Ev.intr true))).tail

/-- Whether a trace consists only of closesocket calls. -/
def onlyCloses (evs : List Ev) : Bool :=
  evs.all (fun e => match e with | Ev.closec _ => true | _ => false)

/-- Whether the first ff_socket_nonblock call of a trace comes before its
first connect call (vacuously true when there is no connect call). -/
def nonblockBeforeConnect (evs : List Ev) : Bool :=
  match evs.findIdx? (fun e => match e with | Ev.nb _ => true | _ => false),
        evs.findIdx? (fun e => match e with | Ev.conn _ _ _ => true | _ => false) with
  | some i, some j => decide (i < j)
  | _, none => true
  | none, some _ => false

/-- A baseline oracle: outbound connect on "tcp" port 80, one candidate,
socket() returns 3, connect succeeds immediately, allocation succeeds. -/
def baseEnv : Env :=
  { proto := "tcp", hostname := "h", port := 80, resolve := some 0
    socketRes := fun _ => 3, bindRes := fun _ => 0, listenRes := fun _ => 0
    acceptRes := fun _ => 4, connectRes := fun _ => 0, pollRes := fun _ => 1
    intr := fun _ => false, soRes := fun _ => some 0, errnoAt := fun _ => 0
    mallocOk := true }

/-- Connect succeeds immediately but av_malloc fails. -/
def envAllocFail : Env := { baseEnv with mallocOk := false }

/-- Two candidates; the first connect reports EINPROGRESS, the interrupt
predicate latches to true from clock 3 onward, i.e. exactly while the first
poll call (made at clock 3) is in progress; that poll reports readiness, the
SO_ERROR check reports 111 (ECONNREFUSED), and the second candidate then fails
genuinely with errno 111. -/
def envAbortRace : Env :=
  { baseEnv with
    resolve := some 1,
    socketRes := fun t => if t = 0 then 3 else 4,
    connectRes := fun _ => -1,
    errnoAt := fun t => if t = 1 then 115 else 111,
    intr := fun t => decide (3 ≤ t),
    soRes := fun _ => some 111 }

/-- Two candidates; the first connect reports EINPROGRESS and the interrupt
predicate is already true at the wait loop's first checkpoint (clock 2). -/
def envAbortStop : Env :=
  { baseEnv with
    resolve := some 1,
    connectRes := fun _ => -1,
    errnoAt := fun _ => 115,
    intr := fun t => decide (2 ≤ t) }

/-- Two candidates, both failing their connect genuinely (errno 111). -/
def envExhaust : Env :=
  { baseEnv with
    resolve := some 1,
    connectRes := fun _ => -1,
    errnoAt := fun _ => 111 }

/-- Name resolution fails. -/
def envResFail : Env := { baseEnv with resolve := none }

/-- One candidate whose socket() call fails, exhausting the sequence. -/
def envSockFail : Env := { baseEnv with socketRes := fun _ => -1, errnoAt := fun _ => 23 }

/-- Listen mode oracle: bind succeeds, accept fails with errno 9 (EBADF). -/
def envAcceptFail : Env := { baseEnv with acceptRes := fun _ => -1, errnoAt := fun _ => 9 }

/-- av_url_split reports the scheme "udp". -/
def envBadProto : Env := { baseEnv with proto := "udp" }

/-- The first connect call (clock 1) fails with EINTR; the reissued connect
(clock 3) succeeds. -/
def envEintrOnce : Env :=
  { baseEnv with
    connectRes := fun t => if t = 1 then -1 else 0,
    errnoAt := fun _ => 4 }

/-! ### Trace bookkeeping lemmas -/

theorem afterAbort_cons_of_ne (e : Ev) (l : List Ev) (h : e ≠ Ev.intr true) :
    afterAbort (e :: l) = afterAbort l := by
  simp [afterAbort, List.dropWhile_cons, h]

theorem afterAbort_append_of_notMem (pre l : List Ev) (h : Ev.intr true ∉ pre) :
    afterAbort (pre ++ l) = afterAbort l := by
  induction pre with
  | nil => rfl
  | cons e t ih =>
    have he : e ≠ Ev.intr true := by
      intro hh
      exact h (hh ▸ List.mem_cons_self e t)
    rw [List.cons_append, afterAbort_cons_of_ne _ _ he]
    exact ih fun hm => h (List.mem_cons_of_mem e hm)

theorem afterAbort_intr_cons (l : List Ev) :
    afterAbort (Ev.intr true :: l) = l := by
  simp [afterAbort, List.dropWhile_cons]

theorem afterAbort_nil_of_notMem (l : List Ev) (h : Ev.intr true ∉ l) :
    afterAbort l = [] := by
  induction l with
  | nil => rfl
  | cons e t ih =>
    have he : e ≠ Ev.intr true := by
      intro hh
      exact h (hh ▸ List.mem_cons_self e t)
    rw [afterAbort_cons_of_ne _ _ he]
    exact ih fun hm => h (List.mem_cons_of_mem e hm)

theorem attempted_nil_of (l : List Ev) (h : ∀ c f, Ev.sock c f ∉ l) : attempted l = [] := by
  rw [attempted, List.filterMap_eq_nil_iff]
  intro e he
  cases e
  case sock c f => exact absurd he (h c f)
  all_goals rfl

theorem countGofail_nil_of (l : List Ev) (h : ∀ c, Ev.gofail c ∉ l) : countGofail l = 0 := by
  rw [countGofail, List.length_eq_zero, List.filter_eq_nil_iff]
  intro e he
  cases e
  case gofail c => exact absurd he (h c)
  all_goals simp

theorem countConn_nil_of (l : List Ev) (h : ∀ c f r, Ev.conn c f r ∉ l) : countConn l = 0 := by
  rw [countConn, List.length_eq_zero, List.filter_eq_nil_iff]
  intro e he
  cases e
  case conn c f r => exact absurd he (h c f r)
  all_goals simp

theorem attempted_append (a b : List Ev) : attempted (a ++ b) = attempted a ++ attempted b := by
  simp [attempted, List.filterMap_append]

theorem countGofail_append (a b : List Ev) :
    countGofail (a ++ b) = countGofail a + countGofail b := by
  simp [countGofail, List.filter_append]

theorem countConn_append (a b : List Ev) :
    countConn (a ++ b) = countConn a + countConn b := by
  simp [countConn, List.filter_append]

/-! ### Wait loop characterization -/

theorem wl_main (env : Env) (fd : Int) :
    ∀ (fuel : Nat) (st : St) (ab : Bool) (evs : List Ev) (st' : St),
      waitLoop env fd fuel st = some (ab, evs, st') →
      (∀ e ∈ evs, e = Ev.intr false ∨ e = Ev.intr true ∨ ∃ r, e = Ev.pollc fd r) ∧
      (ab = true → ∃ pre, evs = pre ++ [Ev.intr true] ∧ Ev.intr true ∉ pre) ∧
      (ab = false → Ev.intr true ∉ evs) := by
  intro fuel
  induction fuel with
  | zero =>
    intro st ab evs st' h
    simp [waitLoop] at h
  | succ n ih =>
    intro st ab evs st' h
    simp only [waitLoop] at h
    split at h
    · simp only [Option.some.injEq, Prod.mk.injEq] at h
      obtain ⟨hab, hevs, hst⟩ := h
      subst hab; subst hevs
      refine ⟨?_, fun _ => ⟨[], rfl, by simp⟩, by simp⟩
      intro e he
      simp at he
      subst he
      exact Or.inr (Or.inl rfl)
    · split at h
      · simp only [Option.some.injEq, Prod.mk.injEq] at h
        obtain ⟨hab, hevs, hst⟩ := h
        subst hab; subst hevs
        refine ⟨?_, by simp, ?_⟩
        · intro e he
          simp at he
          rcases he with he | he <;> subst he
          · exact Or.inl rfl
          · exact Or.inr (Or.inr ⟨_, rfl⟩)
        · intro _
          simp
      · rename_i hpoll
        rcases hrec : waitLoop env fd n (afterCall env (tick st) (env.pollRes (tick st).clk)) with _ | ⟨ab2, evs2, st3⟩ <;> rw [hrec] at h
        · exact absurd h (by simp)
        · simp only [Option.some.injEq, Prod.mk.injEq] at h
          obtain ⟨hab, hevs, hst⟩ := h
          subst hab; subst hevs
          obtain ⟨hm, hat, haf⟩ := ih _ _ _ _ hrec
          refine ⟨?_, ?_, ?_⟩
          · intro e he
            simp at he
            rcases he with he | he | he
            · subst he; exact Or.inl rfl
            · subst he; exact Or.inr (Or.inr ⟨_, rfl⟩)
            · exact hm e he
          · intro hab2
            obtain ⟨pre, hpre, hnm⟩ := hat hab2
            refine ⟨Ev.intr false :: Ev.pollc fd (env.pollRes (tick st).clk) :: pre,
              by simp [hpre], ?_⟩
            simp [hnm]
          · intro hab2
            simp [haf hab2]

/-! ### Connect phase characterization -/

theorem cp_main (env : Env) (cand : Nat) (fd : Int) :
    ∀ (fuel : Nat) (entry : Option Int) (st : St) (out : COut) (evs : List Ev) (st' : St),
      connPhase env cand fd fuel entry st = some (out, evs, st') →
      (∀ e ∈ evs, (∃ r, e = Ev.conn cand fd r) ∨ e = Ev.nb fd ∨ (∃ b, e = Ev.intr b) ∨
        (∃ r, e = Ev.pollc fd r) ∨ ∃ v, e = Ev.sockopt fd v) ∧
      (out = COut.abortc → ∃ pre, evs = pre ++ [Ev.intr true] ∧ Ev.intr true ∉ pre) ∧
      (out ≠ COut.abortc → Ev.intr true ∉ evs) := by
  intro fuel
  induction fuel with
  | zero =>
    intro entry st out evs st' h
    simp [connPhase] at h
  | succ n ih =>
    intro entry st out evs st' h
    cases entry with
    | none =>
      simp only [connPhase] at h
      rcases hrec : connPhase env cand fd n (some (env.connectRes st.clk))
          (afterCall env st (env.connectRes st.clk)) with _ | ⟨o2, evs2, st2⟩ <;> rw [hrec] at h
      · exact absurd h (by simp)
      · simp only [Option.some.injEq, Prod.mk.injEq] at h
        obtain ⟨ho, hevs, hst⟩ := h
        subst ho; subst hevs
        obtain ⟨hm, hat, haf⟩ := ih _ _ _ _ _ hrec
        refine ⟨?_, ?_, ?_⟩
        · intro e he
          rcases List.mem_cons.mp he with he | he
          · subst he; exact Or.inl ⟨_, rfl⟩
          · exact hm e he
        · intro hab
          obtain ⟨pre, hpre, hnm⟩ := hat hab
          exact ⟨Ev.conn cand fd (env.connectRes st.clk) :: pre, by simp [hpre], by simp [hnm]⟩
        · intro hnab
          simp [haf hnab]
    | some r =>
      simp only [connPhase] at h
      split at h
      · -- r < 0
        split at h
        · -- EINTR errno
          split at h
          · -- interrupt predicate asserted
            simp only [Option.some.injEq, Prod.mk.injEq] at h
            obtain ⟨ho, hevs, hst⟩ := h
            subst ho; subst hevs
            refine ⟨?_, fun _ => ⟨[Ev.nb fd], rfl, by simp⟩, by simp⟩
            intro e he
            rcases List.mem_cons.mp he with he | he
            · subst he; exact Or.inr (Or.inl rfl)
            · simp at he
              subst he
              exact Or.inr (Or.inr (Or.inl ⟨_, rfl⟩))
          · -- retry: recurse at the redo label
            rcases hrec : connPhase env cand fd n none (tick st) with _ | ⟨o2, evs2, st2⟩ <;>
              rw [hrec] at h
            · exact absurd h (by simp)
            · simp only [Option.some.injEq, Prod.mk.injEq] at h
              obtain ⟨ho, hevs, hst⟩ := h
              subst ho; subst hevs
              obtain ⟨hm, hat, haf⟩ := ih _ _ _ _ _ hrec
              refine ⟨?_, ?_, ?_⟩
              · intro e he
                rcases List.mem_cons.mp he with he | he
                · subst he; exact Or.inr (Or.inl rfl)
                · rcases List.mem_cons.mp he with he | he
                  · subst he; exact Or.inr (Or.inr (Or.inl ⟨_, rfl⟩))
                  · exact hm e he
              · intro hab
                obtain ⟨pre, hpre, hnm⟩ := hat hab
                exact ⟨Ev.nb fd :: Ev.intr false :: pre, by simp [hpre], by simp [hnm]⟩
              · intro hnab
                simp [haf hnab]
        · -- not EINTR
          split at h
          · -- genuine failure
            simp only [Option.some.injEq, Prod.mk.injEq] at h
            obtain ⟨ho, hevs, hst⟩ := h
            subst ho; subst hevs
            refine ⟨?_, by simp, by simp⟩
            intro e he
            simp at he
            subst he
            exact Or.inr (Or.inl rfl)
          · -- wait loop then SO_ERROR check
            rcases hwl : waitLoop env fd (n + 1) st with _ | ⟨ab, wevs, wst⟩
            · rw [hwl] at h
              exact absurd h (by simp)
            · obtain ⟨wm, wat, waf⟩ := wl_main env fd _ _ _ _ _ hwl
              cases ab
              · rw [hwl] at h
                simp only [Option.some.injEq, Prod.mk.injEq] at h
                obtain ⟨ho, hevs, hst⟩ := h
                subst hevs
                have hnab : out ≠ COut.abortc := by
                  rw [← ho]; split <;> simp
                have hni : Ev.intr true ∉ wevs := waf rfl
                refine ⟨?_, fun hab => absurd hab hnab, ?_⟩
                · intro e he
                  rcases List.mem_cons.mp he with he | he
                  · subst he; exact Or.inr (Or.inl rfl)
                  · rcases (List.mem_append.mp he) with he | he
                    · rcases wm e he with h1 | h1 | h1
                      · subst h1; exact Or.inr (Or.inr (Or.inl ⟨_, rfl⟩))
                      · subst h1; exact Or.inr (Or.inr (Or.inl ⟨_, rfl⟩))
                      · exact Or.inr (Or.inr (Or.inr (Or.inl h1)))
                    · simp at he
                      subst he
                      exact Or.inr (Or.inr (Or.inr (Or.inr ⟨_, rfl⟩)))
                · intro _
                  simp [hni]
              · rw [hwl] at h
                simp only [Option.some.injEq, Prod.mk.injEq] at h
                obtain ⟨ho, hevs, hst⟩ := h
                subst ho; subst hevs
                obtain ⟨pre, hpre, hnm⟩ := wat rfl
                refine ⟨?_, ?_, by simp⟩
                · intro e he
                  rcases List.mem_cons.mp he with he | he
                  · subst he; exact Or.inr (Or.inl rfl)
                  · rcases wm e he with h1 | h1 | h1
                    · subst h1; exact Or.inr (Or.inr (Or.inl ⟨_, rfl⟩))
                    · subst h1; exact Or.inr (Or.inr (Or.inl ⟨_, rfl⟩))
                    · exact Or.inr (Or.inr (Or.inr (Or.inl h1)))
                · intro _
                  exact ⟨Ev.nb fd :: pre, by simp [hpre], by simp [hnm]⟩
      · -- ret >= 0: connected
        simp only [Option.some.injEq, Prod.mk.injEq] at h
        obtain ⟨ho, hevs, hst⟩ := h
        subst ho; subst hevs
        refine ⟨?_, by simp, by simp⟩
        intro e he
        simp at he
        subst he
        exact Or.inr (Or.inl rfl)

/-! ### Per-candidate characterization -/

theorem cp_kinds_nil (cand : Nat) (fd : Int) (cpEvs : List Ev)
    (hm : ∀ e ∈ cpEvs, (∃ r, e = Ev.conn cand fd r) ∨ e = Ev.nb fd ∨ (∃ b, e = Ev.intr b) ∨
      (∃ r, e = Ev.pollc fd r) ∨ ∃ v, e = Ev.sockopt fd v) :
    attempted cpEvs = [] ∧ countGofail cpEvs = 0 := by
  constructor
  · apply attempted_nil_of
    intro c f hmem
    rcases hm _ hmem with ⟨r, h⟩ | h | ⟨b, h⟩ | ⟨r, h⟩ | ⟨v, h⟩ <;> simp at h
  · apply countGofail_nil_of
    intro c hmem
    rcases hm _ hmem with ⟨r, h⟩ | h | ⟨b, h⟩ | ⟨r, h⟩ | ⟨v, h⟩ <;> simp at h

theorem attempted_closeEvs (f : Int) : attempted (closeEvs f) = [] := by
  unfold closeEvs
  split <;> simp [attempted]

theorem countGofail_closeEvs (f : Int) : countGofail (closeEvs f) = 0 := by
  unfold closeEvs
  split <;> simp [countGofail]

theorem onlyCloses_closeEvs (f : Int) : onlyCloses (closeEvs f) = true := by
  unfold closeEvs
  split <;> simp [onlyCloses]

theorem intr_notMem_closeEvs (f : Int) : Ev.intr true ∉ closeEvs f := by
  unfold closeEvs
  split <;> simp

theorem settle_glue (env : Env) (cand : Nat) (fd : Int) (pre cpEvs : List Ev)
    (out : COut) (st5 : St)
    (hm : ∀ e ∈ cpEvs, (∃ r, e = Ev.conn cand fd r) ∨ e = Ev.nb fd ∨ (∃ b, e = Ev.intr b) ∨
      (∃ r, e = Ev.pollc fd r) ∨ ∃ v, e = Ev.sockopt fd v)
    (hat : out = COut.abortc → ∃ p2, cpEvs = p2 ++ [Ev.intr true] ∧ Ev.intr true ∉ p2)
    (haf : out ≠ COut.abortc → Ev.intr true ∉ cpEvs)
    (hps : attempted pre = [cand]) (hpg : countGofail pre = 0) (hpi : Ev.intr true ∉ pre) :
    attempted (pre ++ (cpEvs ++ (settle env fd out st5).2.1)) = [cand] ∧
    countGofail (pre ++ (cpEvs ++ (settle env fd out st5).2.1)) = 0 ∧
    (Ev.intr true ∈ pre ++ (cpEvs ++ (settle env fd out st5).2.1) →
      (settle env fd out st5).1 = Step.done AVERROR_EXIT none ∧
      onlyCloses (afterAbort (pre ++ (cpEvs ++ (settle env fd out st5).2.1))) = true) ∧
    (∀ f, (settle env fd out st5).1 = Step.adv f →
      Ev.intr true ∉ pre ++ (cpEvs ++ (settle env fd out st5).2.1)) ∧
    (∀ code ctx, (settle env fd out st5).1 = Step.done code ctx →
      (code = 0 ∧ ∃ c, ctx = some c) ∨ (code = AVERROR ENOMEM ∧ ctx = none) ∨
      (code = AVERROR_EXIT ∧ ctx = none)) := by
  obtain ⟨hca, hcg⟩ := cp_kinds_nil cand fd cpEvs hm
  cases out with
  | connected =>
    have hni : Ev.intr true ∉ cpEvs := haf (by simp)
    by_cases hmo : env.mallocOk
    · have hs : settle env fd COut.connected st5 =
          (Step.done 0 (some { fd := fd }), [Ev.alloc true], st5) := by
        simp [settle, hmo]
      rw [hs]
      refine ⟨?_, ?_, ?_, ?_, ?_⟩
      · rw [attempted_append, attempted_append, hps, hca]
        simp [attempted]
      · rw [countGofail_append, countGofail_append, hpg, hcg]
        simp [countGofail]
      · intro hmem
        rcases List.mem_append.mp hmem with hx | hx
        · exact absurd hx hpi
        · rcases List.mem_append.mp hx with hx | hx
          · exact absurd hx hni
          · simp at hx
      · intro f hf
        exact absurd hf (by simp)
      · intro code ctx hc
        simp only [Step.done.injEq] at hc
        exact Or.inl ⟨hc.1.symm, ⟨_, hc.2.symm⟩⟩
    · have hs : settle env fd COut.connected st5 =
          (Step.done (AVERROR ENOMEM) none, [Ev.alloc false], st5) := by
        simp [settle, hmo]
      rw [hs]
      refine ⟨?_, ?_, ?_, ?_, ?_⟩
      · rw [attempted_append, attempted_append, hps, hca]
        simp [attempted]
      · rw [countGofail_append, countGofail_append, hpg, hcg]
        simp [countGofail]
      · intro hmem
        rcases List.mem_append.mp hmem with hx | hx
        · exact absurd hx hpi
        · rcases List.mem_append.mp hx with hx | hx
          · exact absurd hx hni
          · simp at hx
      · intro f hf
        exact absurd hf (by simp)
      · intro code ctx hc
        simp only [Step.done.injEq] at hc
        exact Or.inr (Or.inl ⟨hc.1.symm, hc.2.symm⟩)
  | failc =>
    have hni : Ev.intr true ∉ cpEvs := haf (by simp)
    have hs : settle env fd COut.failc st5 = (Step.adv fd, [], st5) := rfl
    rw [hs]
    have hnm : Ev.intr true ∉ pre ++ (cpEvs ++ []) := by
      intro hmem
      rcases List.mem_append.mp hmem with hx | hx
      · exact absurd hx hpi
      · rcases List.mem_append.mp hx with hx | hx
        · exact absurd hx hni
        · simp at hx
    refine ⟨?_, ?_, ?_, ?_, ?_⟩
    · rw [attempted_append, attempted_append, hps, hca]
      simp [attempted]
    · rw [countGofail_append, countGofail_append, hpg, hcg]
      simp [countGofail]
    · intro hmem
      exact absurd hmem hnm
    · intro f hf
      exact hnm
    · intro code ctx hc
      exact absurd hc (by simp)
  | abortc =>
    obtain ⟨p2, hp2, hni2⟩ := hat rfl
    have hs : settle env fd COut.abortc st5 =
        (Step.done AVERROR_EXIT none, closeEvs fd, st5) := rfl
    rw [hs]
    refine ⟨?_, ?_, ?_, ?_, ?_⟩
    · rw [attempted_append, attempted_append, hps, hca, attempted_closeEvs]
      simp
    · rw [countGofail_append, countGofail_append, hpg, hcg, countGofail_closeEvs]
    · intro _
      refine ⟨rfl, ?_⟩
      have hform : pre ++ (cpEvs ++ closeEvs fd) =
          (pre ++ p2) ++ (Ev.intr true :: closeEvs fd) := by
        rw [hp2]
        simp
      have hnm : Ev.intr true ∉ pre ++ p2 := by
        intro hx
        rcases List.mem_append.mp hx with hx | hx
        · exact absurd hx hpi
        · exact absurd hx hni2
      rw [hform, afterAbort_append_of_notMem _ _ hnm, afterAbort_intr_cons]
      exact onlyCloses_closeEvs fd
    · intro f hf
      exact absurd hf (by simp)
    · intro code ctx hc
      simp only [Step.done.injEq] at hc
      exact Or.inr (Or.inr ⟨hc.1.symm, hc.2.symm⟩)

theorem oc_main (env : Env) (lst : Bool) (fuel : Nat) (cur : Nat) (st : St)
    (stp : Step) (evs : List Ev) (st1 : St)
    (h : oneCand env lst fuel cur st = some (stp, evs, st1)) :
    attempted evs = [cur] ∧ countGofail evs = 0 ∧
    (Ev.intr true ∈ evs → stp = Step.done AVERROR_EXIT none ∧
      onlyCloses (afterAbort evs) = true) ∧
    (∀ fd, stp = Step.adv fd → Ev.intr true ∉ evs) ∧
    (∀ code ctx, stp = Step.done code ctx →
      (code = 0 ∧ ∃ c, ctx = some c) ∨ (code = AVERROR ENOMEM ∧ ctx = none) ∨
      (code = AVERROR_EXIT ∧ ctx = none)) := by
  simp only [oneCand] at h
  split at h
  · simp only [Option.some.injEq, Prod.mk.injEq] at h
    obtain ⟨hstp, hevs, hst⟩ := h
    subst hstp; subst hevs
    refine ⟨by simp [attempted], by simp [countGofail], ?_, ?_, ?_⟩
    · intro hmem
      simp at hmem
    · intro f _
      simp
    · intro code ctx hc
      exact absurd hc (by simp)
  · split at h
    · split at h
      · exact absurd h (by simp)
      · rename_i out cpEvs st5 heq
        simp only [Option.some.injEq, Prod.mk.injEq] at h
        obtain ⟨hstp, hevs, hst⟩ := h
        subst hstp; subst hevs
        obtain ⟨hm, hat, haf⟩ := cp_main env cur _ _ _ _ _ _ _ heq
        refine settle_glue env cur _ _ _ _ _ hm hat haf ?_ ?_ ?_
        · simp [listenPre, attempted]
        · simp [listenPre, countGofail]
        · simp [listenPre]
    · split at h
      · exact absurd h (by simp)
      · rename_i out cpEvs st5 heq
        simp only [Option.some.injEq, Prod.mk.injEq] at h
        obtain ⟨hstp, hevs, hst⟩ := h
        subst hstp; subst hevs
        obtain ⟨hm, hat, haf⟩ := cp_main env cur _ _ _ _ _ _ _ heq
        refine settle_glue env cur _ _ _ _ _ hm hat haf ?_ ?_ ?_
        · simp [attempted]
        · simp [countGofail]
        · simp

theorem attempted_gofail_close (c : Nat) (f : Int) :
    attempted (Ev.gofail c :: closeEvs f) = [] := by
  unfold closeEvs
  split <;> simp [attempted]

theorem countGofail_gofail_close (c : Nat) (f : Int) :
    countGofail (Ev.gofail c :: closeEvs f) = 1 := by
  unfold closeEvs
  split <;> simp [countGofail]

theorem intr_notMem_gofail_close (c : Nat) (f : Int) :
    Ev.intr true ∉ Ev.gofail c :: closeEvs f := by
  unfold closeEvs
  split <;> simp

/-! ### Candidate loop characterization -/

theorem tf_main (env : Env) (lst : Bool) (fuel : Nat) :
    ∀ (rest : List Nat) (cur : Nat) (st : St) (res : Int × Option TCPContext)
      (evs : List Ev) (st' : St),
      tryFrom env lst fuel rest cur st = some (res, evs, st') →
      (∃ l, attempted evs = cur :: l ∧ l <+: rest ∧
        (res = (AVERROR EIO_code, none) → l = rest) ∧
        (attempted evs).length ≤ countGofail evs + 1) ∧
      (Ev.intr true ∈ evs → res.1 = AVERROR_EXIT ∧ onlyCloses (afterAbort evs) = true) ∧
      (res.1 = 0 ∨ res.1 = AVERROR ENOMEM ∨ res.1 = AVERROR_EXIT ∨
        res.1 = AVERROR EIO_code) := by
  intro rest
  induction rest with
  | nil =>
    intro cur st res evs st' h
    simp only [tryFrom] at h
    split at h
    · exact absurd h (by simp)
    · rename_i code ctx evs0 st1 heq
      simp only [Option.some.injEq, Prod.mk.injEq] at h
      obtain ⟨hres, hevs, hst⟩ := h
      subst hres; subst hevs
      obtain ⟨ha, hg, hintr, hadv, hcodes⟩ := oc_main env lst fuel cur st _ _ _ heq
      refine ⟨⟨[], by simpa using ha, List.nil_prefix, fun _ => rfl, ?_⟩, ?_, ?_⟩
      · rw [ha, hg]
        simp
      · intro hmem
        obtain ⟨hd, hoc⟩ := hintr hmem
        simp only [Step.done.injEq] at hd
        exact ⟨hd.1, hoc⟩
      · rcases hcodes code ctx rfl with ⟨hc, _⟩ | ⟨hc, _⟩ | ⟨hc, _⟩
        · exact Or.inl hc
        · exact Or.inr (Or.inl hc)
        · exact Or.inr (Or.inr (Or.inl hc))
    · rename_i fd evs0 st1 heq
      simp only [Option.some.injEq, Prod.mk.injEq] at h
      obtain ⟨hres, hevs, hst⟩ := h
      subst hres; subst hevs
      obtain ⟨ha, hg, hintr, hadv, hcodes⟩ := oc_main env lst fuel cur st _ _ _ heq
      have haP : attempted (evs0 ++ Ev.gofail cur :: closeEvs fd) = [cur] := by
        rw [attempted_append, ha, attempted_gofail_close]
        simp
      have hgP : countGofail (evs0 ++ Ev.gofail cur :: closeEvs fd) = 1 := by
        rw [countGofail_append, hg, countGofail_gofail_close]
      have hiP : Ev.intr true ∉ evs0 ++ Ev.gofail cur :: closeEvs fd := by
        intro hx
        rcases List.mem_append.mp hx with hx | hx
        · exact hadv fd rfl hx
        · exact intr_notMem_gofail_close cur fd hx
      refine ⟨⟨[], by simpa using haP, List.nil_prefix, fun _ => rfl, ?_⟩, ?_, ?_⟩
      · rw [haP, hgP]
        simp
      · intro hmem
        exact absurd hmem hiP
      · exact Or.inr (Or.inr (Or.inr rfl))
  | cons next rest2 ih =>
    intro cur st res evs st' h
    simp only [tryFrom] at h
    split at h
    · exact absurd h (by simp)
    · rename_i code ctx evs0 st1 heq
      simp only [Option.some.injEq, Prod.mk.injEq] at h
      obtain ⟨hres, hevs, hst⟩ := h
      subst hres; subst hevs
      obtain ⟨ha, hg, hintr, hadv, hcodes⟩ := oc_main env lst fuel cur st _ _ _ heq
      refine ⟨⟨[], by simpa using ha, List.nil_prefix, ?_, ?_⟩, ?_, ?_⟩
      · intro hx
        exfalso
        rcases hcodes code ctx rfl with ⟨hc, _⟩ | ⟨hc, hc2⟩ | ⟨hc, hc2⟩ <;>
          simp only [Prod.mk.injEq] at hx
        · rw [hx.1] at hc
          exact absurd hc (by decide)
        · rw [hx.1] at hc
          exact absurd hc (by decide)
        · rw [hx.1] at hc
          exact absurd hc (by decide)
      · rw [ha, hg]
        simp
      · intro hmem
        obtain ⟨hd, hoc⟩ := hintr hmem
        simp only [Step.done.injEq] at hd
        exact ⟨hd.1, hoc⟩
      · rcases hcodes code ctx rfl with ⟨hc, _⟩ | ⟨hc, _⟩ | ⟨hc, _⟩
        · exact Or.inl hc
        · exact Or.inr (Or.inl hc)
        · exact Or.inr (Or.inr (Or.inl hc))
    · rename_i fd evs0 st1 heq
      split at h
      · exact absurd h (by simp)
      · rename_i res2 evs2 st2 hrec
        simp only [Option.some.injEq, Prod.mk.injEq] at h
        obtain ⟨hres, hevs, hst⟩ := h
        subst hres; subst hevs
        obtain ⟨ha, hg, hintr, hadv, hcodes⟩ := oc_main env lst fuel cur st _ _ _ heq
        obtain ⟨⟨l2, ha2, hp2, hio2, hlen2⟩, hintr2, hcodes2⟩ := ih next st1 res2 evs2 st2 hrec
        have hform : evs0 ++ Ev.gofail cur :: (closeEvs fd ++ evs2) =
            (evs0 ++ Ev.gofail cur :: closeEvs fd) ++ evs2 := by
          simp
        have haP : attempted (evs0 ++ Ev.gofail cur :: closeEvs fd) = [cur] := by
          rw [attempted_append, ha, attempted_gofail_close]
          simp
        have hgP : countGofail (evs0 ++ Ev.gofail cur :: closeEvs fd) = 1 := by
          rw [countGofail_append, hg, countGofail_gofail_close]
        have hiP : Ev.intr true ∉ evs0 ++ Ev.gofail cur :: closeEvs fd := by
          intro hx
          rcases List.mem_append.mp hx with hx | hx
          · exact hadv fd rfl hx
          · exact intr_notMem_gofail_close cur fd hx
        rw [hform]
        refine ⟨⟨next :: l2, ?_, ?_, ?_, ?_⟩, ?_, hcodes2⟩
        · rw [attempted_append, haP, ha2]
          rfl
        · obtain ⟨t, ht⟩ := hp2
          exact ⟨t, by simp [← ht]⟩
        · intro hio
          rw [hio2 hio]
        · rw [attempted_append, haP, ha2, countGofail_append, hgP]
          have : (attempted evs2).length ≤ countGofail evs2 + 1 := hlen2
          rw [ha2] at this
          simp only [List.length_append, List.length_cons]
          simp at this ⊢
          omega
        · intro hmem
          rcases List.mem_append.mp hmem with hx | hx
          · exact absurd hx hiP
          · obtain ⟨he, hoc⟩ := hintr2 hx
            refine ⟨he, ?_⟩
            rw [afterAbort_append_of_notMem _ _ hiP]
            exact hoc

/-- Every return from line 91 onward starts its trace with the
ff_socket_nonblock call: the entry state at line 91 runs ff_socket_nonblock
before anything else. -/
theorem cp_some_head (env : Env) (cand : Nat) (fd : Int) (fuel : Nat) (r : Int) (st : St)
    (o : COut) (evs : List Ev) (st' : St)
    (h : connPhase env cand fd fuel (some r) st = some (o, evs, st')) :
    ∃ tail, evs = Ev.nb fd :: tail := by
  cases fuel with
  | zero => simp [connPhase] at h
  | succ n =>
    simp only [connPhase] at h
    repeat' split at h
    all_goals
      first
      | exact Option.noConfusion h
      | (simp only [Option.some.injEq, Prod.mk.injEq] at h
         exact ⟨_, h.2.1.symm⟩)

/-- When the entry value at line 91 is not an EINTR-class failure, no connect
call happens during the rest of this candidate's establishment phase. -/
theorem cp_no_retry (env : Env) (cand : Nat) (fd : Int) (fuel : Nat) (r : Int) (st : St)
    (o : COut) (evs : List Ev) (st' : St)
    (h : connPhase env cand fd fuel (some r) st = some (o, evs, st'))
    (hno : ¬(r < 0 ∧ ff_neterrno st.lastErr = AVERROR EINTR)) :
    countConn evs = 0 := by
  cases fuel with
  | zero => simp [connPhase] at h
  | succ n =>
    simp only [connPhase] at h
    split at h
    · rename_i hr
      split at h
      · rename_i he
        exact absurd ⟨hr, he⟩ hno
      · split at h
        · simp only [Option.some.injEq, Prod.mk.injEq] at h
          obtain ⟨_, hevs, _⟩ := h
          subst hevs
          simp [countConn]
        · split at h
          · exact absurd h (by simp)
          · rename_i wevs wst heq
            simp only [Option.some.injEq, Prod.mk.injEq] at h
            obtain ⟨_, hevs, _⟩ := h
            subst hevs
            obtain ⟨wm, _, _⟩ := wl_main env fd _ _ _ _ _ heq
            apply countConn_nil_of
            intro c f r2 hmem
            rcases List.mem_cons.mp hmem with hx | hx
            · simp at hx
            · rcases wm _ hx with hk | hk | ⟨rr, hk⟩ <;> simp at hk
          · rename_i wevs wst heq
            simp only [Option.some.injEq, Prod.mk.injEq] at h
            obtain ⟨_, hevs, _⟩ := h
            subst hevs
            obtain ⟨wm, _, _⟩ := wl_main env fd _ _ _ _ _ heq
            apply countConn_nil_of
            intro c f r2 hmem
            rcases List.mem_cons.mp hmem with hx | hx
            · simp at hx
            · rcases List.mem_append.mp hx with hx | hx
              · rcases wm _ hx with hk | hk | ⟨rr, hk⟩ <;> simp at hk
              · simp at hx
    · simp only [Option.some.injEq, Prod.mk.injEq] at h
      obtain ⟨_, hevs, _⟩ := h
      subst hevs
      simp [countConn]

/-! ### Claim theorems -/

/-- Claim C1 (code bug exhibited): with a successful connect followed by an
av_malloc failure, tcp_open returns AVERROR(ENOMEM) and the trace contains no
closesocket call for the descriptor 3 it created — the allocation-failure
return path (lines 127-131 of tcp.c) frees the addrinfo list and returns
without closing fd, leaking the descriptor, contrary to the stated guarantee
that every failure path closes what it opened. -/
theorem tcp_open_alloc_failure_leaks :
    tcp_open "tcp://h:80" envAllocFail 4 =
      some ((AVERROR ENOMEM, none),
        [Ev.resolvec true, Ev.sock 0 3, Ev.conn 0 3 0, Ev.nb 3, Ev.alloc false]) ∧
    Ev.closec 3 ∉
      [Ev.resolvec true, Ev.sock 0 3, Ev.conn 0 3 0, Ev.nb 3, Ev.alloc false] :=
  ⟨by decide, by decide⟩

/-- Counterexample to claim C2 as stated: in a successful outbound open the
first connect call (trace index 2) precedes the only ff_socket_nonblock call
(trace index 3), so the socket is not switched to non-blocking before the
connection attempt is issued — line 91 runs after line 88. -/
theorem tcp_open_nonblock_after_connect_cex :
    tcp_open "tcp://h:80" baseEnv 4 =
      some ((0, some { fd := 3 }),
        [Ev.resolvec true, Ev.sock 0 3, Ev.conn 0 3 0, Ev.nb 3, Ev.alloc true]) ∧
    nonblockBeforeConnect
      [Ev.resolvec true, Ev.sock 0 3, Ev.conn 0 3 0, Ev.nb 3, Ev.alloc true] = false :=
  ⟨by decide, by decide⟩

/-- Claim C2 (amended): for each candidate in outbound mode the connect
attempt is issued first and ff_socket_nonblock(fd, 1) runs immediately after
that attempt returns — before the interrupt check, any EINTR reissue and any
poll — not before the attempt; so the first connect of every candidate runs
on a still-blocking socket.  The caller's non-blocking flag plays no role in
establishment (it is consulted only by tcp_read/tcp_write). -/
theorem connPhase_connect_then_nonblock (env : Env) (cand : Nat) (fd : Int)
    (fuel : Nat) (st : St) (out : COut) (evs : List Ev) (st' : St)
    (h : connPhase env cand fd (fuel + 1) none st = some (out, evs, st')) :
    evs.take 2 = [Ev.conn cand fd (env.connectRes st.clk), Ev.nb fd] := by
  simp only [connPhase] at h
  rcases hrec : connPhase env cand fd fuel (some (env.connectRes st.clk))
      (afterCall env st (env.connectRes st.clk)) with _ | ⟨o2, evs2, st2⟩ <;> rw [hrec] at h
  · exact Option.noConfusion h
  · obtain ⟨tail, htail⟩ := cp_some_head env cand fd fuel _ _ _ _ _ hrec
    simp only [Option.some.injEq, Prod.mk.injEq] at h
    obtain ⟨_, hevs, _⟩ := h
    subst hevs
    rw [htail]
    rfl

/-- Witness: the first candidate attempt of baseEnv at clock 1 produces the
trace connect-then-nonblock. -/
theorem connPhase_connect_then_nonblock_w :
    [Ev.conn 0 3 0, Ev.nb 3].take 2 = [Ev.conn 0 3 (baseEnv.connectRes 1), Ev.nb 3] :=
  connPhase_connect_then_nonblock baseEnv 0 3 2 { clk := 1, lastErr := 0 }
    COut.connected [Ev.conn 0 3 0, Ev.nb 3] { clk := 2, lastErr := 0 } (by decide)

/-- Claim C5 (code bug exhibited): listen mode with bind succeeding and accept
failing (returning -1) makes tcp_open return success (0) with the invalid
descriptor -1 stored in the context, because line 93 tests only bind's return
value and accept's result is never checked — instead of the ConnectFailure
the claim promises. -/
theorem tcp_open_accept_failure_succeeds :
    tcp_open "tcp://h:80?listen=1" envAcceptFail 4 =
      some ((0, some { fd := -1 }),
        [Ev.resolvec true, Ev.sock 0 3, Ev.bindc 3 0, Ev.lsn 3, Ev.acc 3 (-1),
         Ev.closec 3, Ev.nb (-1), Ev.alloc true]) := by decide

/-- Claim C6: a scheme other than "tcp" or a port outside 1..65535 (as
delivered by av_url_split) makes tcp_open return AVERROR(EINVAL) with an
empty call trace: no name resolution and no socket operation happens. -/
theorem tcp_open_invalid_args (uri : String) (env : Env) (fuel : Nat)
    (hbad : env.proto ≠ "tcp" ∨ env.port ≤ 0 ∨ 65536 ≤ env.port) :
    tcp_open uri env fuel = some ((AVERROR EINVAL, none), []) := by
  simp only [tcp_open]
  rw [if_pos hbad]

/-- Witness: a "udp" scheme is rejected with AVERROR(EINVAL) and no calls. -/
theorem tcp_open_invalid_args_w :
    tcp_open "udp://h:80" envBadProto 4 = some ((AVERROR EINVAL, none), []) :=
  tcp_open_invalid_args "udp://h:80" envBadProto 4 (Or.inl (by decide))

/-- Counterexample to claim C9 as stated: resolution failure and candidate
exhaustion both return the same error code AVERROR(EIO) = -5; the
ResolutionFailure outcome is not distinct from the ConnectFailure outcome in
the returned value (lines 69 and 146 of tcp.c both produce AVERROR(EIO)). -/
theorem tcp_open_resfail_code_cex :
    tcp_open "tcp://h:80" envResFail 4 =
      some ((AVERROR EIO_code, none), [Ev.resolvec false]) ∧
    tcp_open "tcp://h:80" envSockFail 4 =
      some ((AVERROR EIO_code, none),
        [Ev.resolvec true, Ev.sock 0 (-1), Ev.gofail 0]) :=
  ⟨by decide, by decide⟩

/-- Claim C9 (amended): when getaddrinfo fails, tcp_open (with a valid scheme
and port) fails immediately with AVERROR(EIO); the trace records only the
failed resolution, so no socket or connect call is made.  The code is however
the same AVERROR(EIO) that candidate exhaustion produces — the two failures
are distinguished only by the log message, not by the return value. -/
theorem tcp_open_resolution_failure (uri : String) (env : Env) (fuel : Nat)
    (hp : env.proto = "tcp") (h1 : 0 < env.port) (h2 : env.port < 65536)
    (hr : env.resolve = none) :
    tcp_open uri env fuel = some ((AVERROR EIO_code, none), [Ev.resolvec false]) := by
  have hcond : ¬(env.proto ≠ "tcp" ∨ env.port ≤ 0 ∨ 65536 ≤ env.port) := by
    push_neg
    exact ⟨hp, h1, by omega⟩
  simp only [tcp_open]
  rw [if_neg hcond, hr]

/-- Witness: resolution failure on a valid tcp uri. -/
theorem tcp_open_resolution_failure_w :
    tcp_open "tcp://h:80" envResFail 4 =
      some ((AVERROR EIO_code, none), [Ev.resolvec false]) :=
  tcp_open_resolution_failure "tcp://h:80" envResFail 4 rfl (by decide) (by decide) rfl

/-- Claim C10: listen mode is selected by the mere presence of a "listen" tag
in the query string, regardless of its value — "?listen=0" behaves exactly as
"?listen=1" (both runs bind, listen and accept), while the same uri without a
query string connects outbound instead. -/
theorem tcp_open_listen_tag_presence :
    parseListen "tcp://h:80?listen=0" = true ∧
    parseListen "tcp://h:80?listen=1" = true ∧
    parseListen "tcp://h:80" = false ∧
    tcp_open "tcp://h:80?listen=0" baseEnv 4 = tcp_open "tcp://h:80?listen=1" baseEnv 4 ∧
    tcp_open "tcp://h:80?listen=0" baseEnv 4 =
      some ((0, some { fd := 4 }),
        [Ev.resolvec true, Ev.sock 0 3, Ev.bindc 3 0, Ev.lsn 3, Ev.acc 3 4,
         Ev.closec 3, Ev.nb 4, Ev.alloc true]) :=
  ⟨by decide, by decide, by decide, by decide, by decide⟩

/-- Counterexample to claim C3 as stated: with envAbortRace the interrupt
predicate becomes asserted and stays asserted from clock 3 on (intr t is
true exactly when 3 <= t), i.e. while the wait loop's first and only poll
call — made at clock 3 — is in progress; that same poll slice reports
readiness, the loop exits without any further interrupt check, the SO_ERROR
probe reports a genuine failure, and tcp_open goes on to attempt the
remaining candidate (index 1) and finally returns AVERROR(EIO), not the
promised AVERROR_EXIT. -/
theorem tcp_open_abort_race_cex :
    envAbortRace.intr 2 = false ∧ envAbortRace.intr 3 = true ∧
    tcp_open "tcp://h:80" envAbortRace 8 =
      some ((AVERROR EIO_code, none),
        [Ev.resolvec true, Ev.sock 0 3, Ev.conn 0 3 (-1), Ev.nb 3, Ev.intr false,
         Ev.pollc 3 1, Ev.sockopt 3 (some 111), Ev.gofail 0, Ev.closec 3,
         Ev.sock 1 4, Ev.conn 1 4 (-1), Ev.nb 4, Ev.gofail 1, Ev.closec 4]) ∧
    AVERROR EIO_code ≠ AVERROR_EXIT :=
  ⟨by decide, by decide, by decide, by decide⟩

/-- Claim C3 (amended): whenever a checkpoint of tcp_open observes
url_interrupt_cb returning true (the trace contains an interrupt check with
value true), tcp_open returns AVERROR_EXIT, and after that observation
nothing but the fail1 closesocket happens: no further poll slice, no further
connect, no further candidate.  As literally stated the claim is false,
because an interrupt asserted only during the poll slice that reports
readiness is never observed (see the counterexample). -/
theorem tcp_open_abort_checkpoint (uri : String) (env : Env) (fuel : Nat)
    (res : Int × Option TCPContext) (evs : List Ev)
    (h : tcp_open uri env fuel = some (res, evs))
    (hab : Ev.intr true ∈ evs) :
    res.1 = AVERROR_EXIT ∧ onlyCloses (afterAbort evs) = true := by
  simp only [tcp_open] at h
  split at h
  · simp only [Option.some.injEq, Prod.mk.injEq] at h
    obtain ⟨_, hevs⟩ := h
    subst hevs
    simp at hab
  · split at h
    · simp only [Option.some.injEq, Prod.mk.injEq] at h
      obtain ⟨_, hevs⟩ := h
      subst hevs
      simp at hab
    · split at h
      · exact Option.noConfusion h
      · rename_i res2 evs2 st2 hrec
        simp only [Option.some.injEq, Prod.mk.injEq] at h
        obtain ⟨hres, hevs⟩ := h
        subst hres; subst hevs
        have hab2 : Ev.intr true ∈ evs2 := by
          rcases List.mem_cons.mp hab with hx | hx
          · exact absurd hx (by simp)
          · exact hx
        obtain ⟨_, hintr, _⟩ := tf_main env _ fuel _ _ _ _ _ _ hrec
        obtain ⟨he, hoc⟩ := hintr hab2
        refine ⟨he, ?_⟩
        rw [afterAbort_cons_of_ne _ _ (by simp)]
        exact hoc

/-- Witness: with envAbortStop the first wait-loop checkpoint observes the
interrupt; the run returns AVERROR_EXIT and only the close follows. -/
theorem tcp_open_abort_checkpoint_w :
    (AVERROR_EXIT, (none : Option TCPContext)).1 = AVERROR_EXIT ∧
    onlyCloses (afterAbort
      [Ev.resolvec true, Ev.sock 0 3, Ev.conn 0 3 (-1), Ev.nb 3, Ev.intr true,
       Ev.closec 3]) = true :=
  tcp_open_abort_checkpoint "tcp://h:80" envAbortStop 8 (AVERROR_EXIT, none)
    [Ev.resolvec true, Ev.sock 0 3, Ev.conn 0 3 (-1), Ev.nb 3, Ev.intr true, Ev.closec 3]
    (by decide) (by decide)

/-- Claim C4: after a successful resolution into candidates 0..n, the socket()
calls of a tcp_open run attempt candidate 0 first and then a prefix of
1, ..., n in exactly resolver order (no skipping, no reordering); the result
(AVERROR(EIO), no context) — candidate exhaustion — occurs only when that
prefix is the whole sequence, i.e. every candidate was attempted; and the
number of attempts is at most one more than the number of times the fail
label (genuine candidate failure) was reached, so every advance beyond a
candidate was caused by a genuine failure — an abort ends the run instead
(see tcp_open_abort_checkpoint). -/
theorem tcp_open_candidate_order (uri : String) (env : Env) (fuel n : Nat)
    (res : Int × Option TCPContext) (evs : List Ev)
    (hp : env.proto = "tcp") (h1 : 0 < env.port) (h2 : env.port < 65536)
    (hr : env.resolve = some n)
    (h : tcp_open uri env fuel = some (res, evs)) :
    attempted evs = 0 :: (attempted evs).tail ∧
    (attempted evs).tail <+: List.range' 1 n ∧
    (res = (AVERROR EIO_code, none) → (attempted evs).tail = List.range' 1 n) ∧
    (attempted evs).length ≤ countGofail evs + 1 := by
  have hcond : ¬(env.proto ≠ "tcp" ∨ env.port ≤ 0 ∨ 65536 ≤ env.port) := by
    push_neg
    exact ⟨hp, h1, by omega⟩
  simp only [tcp_open] at h
  split at h
  · rename_i hcd
    exact absurd hcd hcond
  · split at h
    · rename_i heqr
      rw [heqr] at hr
      exact Option.noConfusion hr
    · rename_i m heqr
      rw [heqr] at hr
      injection hr with hnm
      subst hnm
      split at h
      · exact Option.noConfusion h
      · rename_i res2 evs2 st2 hrec
        simp only [Option.some.injEq, Prod.mk.injEq] at h
        obtain ⟨hres, hevs⟩ := h
        subst hres; subst hevs
        obtain ⟨⟨l, hal, hpre, hio, hlen⟩, _, _⟩ := tf_main env _ fuel _ _ _ _ _ _ hrec
        have hae : attempted (Ev.resolvec true :: evs2) = attempted evs2 := by
          simp [attempted]
        have hge : countGofail (Ev.resolvec true :: evs2) = countGofail evs2 := by
          simp [countGofail]
        rw [hal] at hlen
        rw [hae, hge, hal]
        exact ⟨rfl, hpre, fun hx => hio hx, hlen⟩

/-- Witness: envExhaust resolves to two candidates, both fail genuinely, and
the run attempts exactly candidates 0 then 1 before AVERROR(EIO). -/
theorem tcp_open_candidate_order_w :
    (attempted [Ev.resolvec true, Ev.sock 0 3, Ev.conn 0 3 (-1), Ev.nb 3, Ev.gofail 0,
        Ev.closec 3, Ev.sock 1 3, Ev.conn 1 3 (-1), Ev.nb 3, Ev.gofail 1,
        Ev.closec 3]).tail = List.range' 1 1 :=
  (tcp_open_candidate_order "tcp://h:80" envExhaust 8 1 (AVERROR EIO_code, none)
    [Ev.resolvec true, Ev.sock 0 3, Ev.conn 0 3 (-1), Ev.nb 3, Ev.gofail 0,
     Ev.closec 3, Ev.sock 1 3, Ev.conn 1 3 (-1), Ev.nb 3, Ev.gofail 1, Ev.closec 3]
    rfl (by decide) (by decide) rfl (by decide)).2.2.1 rfl

/-- Claim C7: (i) when a connect attempt fails with an EINTR errno and the
interrupt predicate is not asserted at the following checkpoint, the machine
returns to the redo label and reissues the identical connect on the same
descriptor for the same candidate — the run continues exactly as a fresh
connect phase on the unchanged fd; (ii) when the first connect result is not
an EINTR-class failure, exactly one connect call happens for that candidate,
so the EINTR path is the only in-place retry; (iii) no tcp_open return value
equals AVERROR(EINTR): transient interruption never surfaces to the caller. -/
theorem tcp_open_eintr_retry :
    (∀ (env : Env) (cand : Nat) (fd : Int) (fuel : Nat) (st : St),
      env.connectRes st.clk < 0 → env.errnoAt st.clk = EINTR →
      env.intr (st.clk + 1) = false →
      connPhase env cand fd (fuel + 2) none st =
        (match connPhase env cand fd fuel none
            { clk := st.clk + 1 + 1, lastErr := EINTR } with
         | none => none
         | some (o, evs, st2) =>
             some (o, Ev.conn cand fd (env.connectRes st.clk) :: Ev.nb fd ::
               Ev.intr false :: evs, st2))) ∧
    (∀ (env : Env) (cand : Nat) (fd : Int) (fuel : Nat) (st : St)
       (out : COut) (evs : List Ev) (st' : St),
      connPhase env cand fd (fuel + 1) none st = some (out, evs, st') →
      ¬(env.connectRes st.clk < 0 ∧ env.errnoAt st.clk = EINTR) →
      countConn evs = 1) ∧
    (∀ (uri : String) (env : Env) (fuel : Nat) (res : Int × Option TCPContext)
       (evs : List Ev),
      tcp_open uri env fuel = some (res, evs) → res.1 ≠ AVERROR EINTR) := by
  refine ⟨?_, ?_, ?_⟩
  · intro env cand fd fuel st hneg herr hint
    have hst1 : afterCall env st (env.connectRes st.clk) =
        { clk := st.clk + 1, lastErr := EINTR } := by
      simp [afterCall, hneg, herr]
    show connPhase env cand fd (fuel + 1 + 1) none st = _
    simp only [connPhase, hst1]
    rw [if_pos hneg, if_pos (show ff_neterrno EINTR = AVERROR EINTR from rfl)]
    simp only [tick, hint]
    rcases hx : connPhase env cand fd fuel none
        { clk := st.clk + 1 + 1, lastErr := EINTR } with _ | ⟨o, evs, st2⟩ <;> simp
  · intro env cand fd fuel st out evs st' h hnot
    simp only [connPhase] at h
    rcases hrec : connPhase env cand fd fuel (some (env.connectRes st.clk))
        (afterCall env st (env.connectRes st.clk)) with _ | ⟨o2, evs2, st2⟩ <;> rw [hrec] at h
    · exact Option.noConfusion h
    · simp only [Option.some.injEq, Prod.mk.injEq] at h
      obtain ⟨_, hevs, _⟩ := h
      subst hevs
      have h0 : countConn evs2 = 0 := by
        apply cp_no_retry env cand fd fuel _ _ _ _ _ hrec
        rintro ⟨hlt, heq⟩
        apply hnot
        refine ⟨hlt, ?_⟩
        have hle : (afterCall env st (env.connectRes st.clk)).lastErr =
            env.errnoAt st.clk := by
          simp [afterCall, hlt]
        rw [hle] at heq
        simp only [ff_neterrno, AVERROR, neg_inj, Nat.cast_inj] at heq
        exact heq
      have hc : countConn (Ev.conn cand fd (env.connectRes st.clk) :: evs2) =
          countConn evs2 + 1 := by
        simp [countConn]
      rw [hc, h0]
  · intro uri env fuel res evs h
    simp only [tcp_open] at h
    split at h
    · simp only [Option.some.injEq, Prod.mk.injEq] at h
      obtain ⟨hres, _⟩ := h
      rw [← hres]
      decide
    · split at h
      · simp only [Option.some.injEq, Prod.mk.injEq] at h
        obtain ⟨hres, _⟩ := h
        rw [← hres]
        decide
      · split at h
        · exact Option.noConfusion h
        · rename_i res2 evs2 st2 hrec
          simp only [Option.some.injEq, Prod.mk.injEq] at h
          obtain ⟨hres, _⟩ := h
          subst hres
          obtain ⟨_, _, hcodes⟩ := tf_main env _ fuel _ _ _ _ _ _ hrec
          rcases hcodes with hc | hc | hc | hc <;> rw [hc] <;> decide

/-- Witness for all three parts of the EINTR-retry contract: envEintrOnce
fails its first connect with EINTR, reissues it on the same fd, and the open
succeeds with no EINTR-class return; baseEnv's non-EINTR first attempt makes
exactly one connect call. -/
theorem tcp_open_eintr_retry_w :
    (connPhase envEintrOnce 0 3 4 none { clk := 1, lastErr := 0 } =
      (match connPhase envEintrOnce 0 3 2 none { clk := 3, lastErr := EINTR } with
       | none => none
       | some (o, evs, st2) =>
           some (o, Ev.conn 0 3 (envEintrOnce.connectRes 1) :: Ev.nb 3 ::
             Ev.intr false :: evs, st2))) ∧
    countConn [Ev.conn 0 3 0, Ev.nb 3] = 1 ∧
    ((0 : Int), some (TCPContext.mk 3)).1 ≠ AVERROR EINTR := by
  refine ⟨?_, ?_, ?_⟩
  · exact tcp_open_eintr_retry.1 envEintrOnce 0 3 2 { clk := 1, lastErr := 0 }
      (by decide) (by decide) (by decide)
  · exact tcp_open_eintr_retry.2.1 baseEnv 0 3 2 { clk := 1, lastErr := 0 }
      COut.connected [Ev.conn 0 3 0, Ev.nb 3] { clk := 2, lastErr := 0 }
      (by decide) (by decide)
  · exact tcp_open_eintr_retry.2.2 "tcp://h:80" baseEnv 4 (0, some (TCPContext.mk 3))
      [Ev.resolvec true, Ev.sock 0 3, Ev.conn 0 3 0, Ev.nb 3, Ev.alloc true] (by decide)

/-- Claim C8: tcp_read and tcp_write translate a negative recv/send result
through ff_neterrno and return a zero-or-positive result verbatim (a zero
read is an orderly peer shutdown, not an error); the ff_network_wait_fd
readiness wait (read readiness for tcp_read, write readiness for tcp_write)
precedes the OS call exactly when the handle's non-blocking flag is unset,
and a failing wait short-circuits, returning the wait's own error without
calling recv/send. -/
theorem tcp_io_contract :
    ∀ (env : IOEnv) (nbf : Bool) (fd : Int),
      (nbf = true →
        tcp_read env nbf fd =
          ((if env.osRes < 0 then ff_neterrno env.osErrno else env.osRes),
            [Ev.recvc fd env.osRes]) ∧
        tcp_write env nbf fd =
          ((if env.osRes < 0 then ff_neterrno env.osErrno else env.osRes),
            [Ev.sendc fd env.osRes])) ∧
      (nbf = false → 0 ≤ env.waitRes →
        tcp_read env nbf fd =
          ((if env.osRes < 0 then ff_neterrno env.osErrno else env.osRes),
            [Ev.waitfd fd false env.waitRes, Ev.recvc fd env.osRes]) ∧
        tcp_write env nbf fd =
          ((if env.osRes < 0 then ff_neterrno env.osErrno else env.osRes),
            [Ev.waitfd fd true env.waitRes, Ev.sendc fd env.osRes])) ∧
      (nbf = false → env.waitRes < 0 →
        tcp_read env nbf fd = (env.waitRes, [Ev.waitfd fd false env.waitRes]) ∧
        tcp_write env nbf fd = (env.waitRes, [Ev.waitfd fd true env.waitRes])) ∧
      (0 ≤ env.osRes →
        (if env.osRes < 0 then ff_neterrno env.osErrno else env.osRes) = env.osRes) := by
  intro env nbf fd
  refine ⟨?_, ?_, ?_, ?_⟩
  · intro hb
    subst hb
    exact ⟨by simp [tcp_read], by simp [tcp_write]⟩
  · intro hb hw
    subst hb
    constructor <;> simp [tcp_read, tcp_write, not_lt.mpr hw]
  · intro hb hw
    subst hb
    constructor <;> simp [tcp_read, tcp_write, hw]
  · intro hw
    rw [if_neg (not_lt.mpr hw)]

/-- Witness: with the non-blocking flag unset, a successful wait precedes the
OS call and a zero-byte recv/send result is returned verbatim. -/
theorem tcp_io_contract_w :
    tcp_read { waitRes := 1, osRes := 0, osErrno := 0 } false 3 =
      (0, [Ev.waitfd 3 false 1, Ev.recvc 3 0]) ∧
    tcp_write { waitRes := 1, osRes := 0, osErrno := 0 } false 3 =
      (0, [Ev.waitfd 3 true 1, Ev.sendc 3 0]) := by
  have h := (tcp_io_contract { waitRes := 1, osRes := 0, osErrno := 0 } false 3).2.1
    rfl (by decide)
  exact ⟨by simpa using h.1, by simpa using h.2⟩
